import Mathlib

/-!
Verification of the message-board service ("Ops-Smith/Node-App").

The development shallowly embeds the two source files:
- src/backend/server.js : the message store (readMessages / writeMessages over one
  JSON file) and the HTTP handlers (GET/POST/DELETE on /messages, the
  older-than and auto-delete endpoints);
- src/frontend/script.js : the escapeHtml utility.

Modelling conventions:
- clock readings (Date.now()) are natural numbers, milliseconds since the epoch;
  a Message's timestamp field stores the instant denoted by its ISO-8601 string,
  as that millisecond count;
- JS numbers appearing as request input (the hours field) are rationals;
- file I/O is a pure state value: FileState says whether the backing file is
  missing/unreadable, unparseable, or holds a JSON document; each handler takes
  a writeOk flag standing for success of fs.writeFileSync;
- JS strings are Lean Strings; where character-level reasoning is needed
  (escapeHtml) they are lists of characters.
-/

namespace NodeApp

/-- A stored message, as persisted by server.js: an id string (produced by
Date.now().toString()), the trimmed text, and the creation instant
(the millisecond count denoted by the stored ISO-8601 timestamp string). -/
structure Message where
  id : String
  text : String
  timestamp : ℕ
deriving Repr, DecidableEq

/-! ### Decimal representation of clock values

server.js builds message ids with Date.now().toString(), i.e. Nat.repr of the
millisecond clock, and the persisted timestamp string is likewise an injective
decimal/ISO rendering of the instant. The lemmas here characterise Nat.repr via
Mathlib's Nat.digits and give a verified parser inverting it. -/

/-- Numeric value of a decimal digit character (its code point minus 48). -/
def decimalVal (c : Char) : ℕ := c.toNat - 48

/-- Parse a non-empty all-digit character list as a decimal numeral. -/
def parseDecimal? (l : List Char) : Option ℕ :=
  if l ≠ [] ∧ ∀ c ∈ l, c.isDigit then
    some (l.foldl (fun a c => a * 10 + decimalVal c) 0)
  else none

theorem decimalVal_digitChar : ∀ d, d < 10 → decimalVal (Nat.digitChar d) = d := by decide

theorem isDigit_digitChar : ∀ d, d < 10 → (Nat.digitChar d).isDigit = true := by decide

theorem toDigitsCore_eq_digits :
    ∀ (fuel n : ℕ) (ds : List Char), n < fuel → 0 < n →
      Nat.toDigitsCore 10 fuel n ds = ((Nat.digits 10 n).map Nat.digitChar).reverse ++ ds := by
  intro fuel
  induction fuel with
  | zero => intro n ds h; omega
  | succ f ih =>
    intro n ds hlt hpos
    rw [Nat.digits_def' (by norm_num : (1:ℕ) < 10) hpos]
    simp only [Nat.toDigitsCore, List.map_cons, List.reverse_cons]
    by_cases h10 : n / 10 = 0
    · simp [h10]
    · rw [if_neg h10]
      have hdivpos : 0 < n / 10 := Nat.pos_of_ne_zero h10
      have hdivlt : n / 10 < f := by
        have : n / 10 < n := Nat.div_lt_self hpos (by norm_num)
        omega
      rw [ih (n / 10) (Nat.digitChar (n % 10) :: ds) hdivlt hdivpos]
      simp

theorem toDigits_eq_digits (n : ℕ) (hpos : 0 < n) :
    Nat.toDigits 10 n = ((Nat.digits 10 n).map Nat.digitChar).reverse := by
  rw [Nat.toDigits, toDigitsCore_eq_digits (n + 1) n [] (Nat.lt_succ_self n) hpos,
    List.append_nil]

theorem foldl_decimal_digits (l : List ℕ) (hl : ∀ d ∈ l, d < 10) (a : ℕ) :
    ((l.map Nat.digitChar).reverse).foldl (fun acc c => acc * 10 + decimalVal c) a
      = a * 10 ^ l.length + Nat.ofDigits 10 l := by
  induction l generalizing a with
  | nil => simp
  | cons d tl ih =>
    simp only [List.map_cons, List.reverse_cons, List.foldl_append, List.foldl_cons,
      List.foldl_nil]
    rw [ih (fun x hx => hl x (List.mem_cons_of_mem d hx)) a]
    rw [decimalVal_digitChar d (hl d (List.mem_cons_self d tl))]
    rw [Nat.ofDigits_cons]
    simp only [List.length_cons, pow_succ]
    ring

/-- Parsing the decimal rendering of a natural number recovers the number. -/
theorem parseDecimal_repr (n : ℕ) : parseDecimal? (Nat.repr n).data = some n := by
  by_cases hpos : 0 < n
  · have hdata : (Nat.repr n).data = ((Nat.digits 10 n).map Nat.digitChar).reverse := by
      rw [Nat.repr, toDigits_eq_digits n hpos]
      rfl
    rw [hdata, parseDecimal?]
    have hlt : ∀ d ∈ Nat.digits 10 n, d < 10 :=
      fun d hd => Nat.digits_lt_base (by norm_num) hd
    have hne : ((Nat.digits 10 n).map Nat.digitChar).reverse ≠ [] := by
      simp [Nat.digits_ne_nil_iff_ne_zero.mpr (Nat.pos_iff_ne_zero.mp hpos)]
    have hdig : ∀ c ∈ ((Nat.digits 10 n).map Nat.digitChar).reverse, c.isDigit := by
      intro c hc
      rw [List.mem_reverse, List.mem_map] at hc
      obtain ⟨d, hd, rfl⟩ := hc
      exact isDigit_digitChar d (hlt d hd)
    rw [if_pos ⟨hne, hdig⟩, foldl_decimal_digits (Nat.digits 10 n) hlt 0]
    simp [Nat.ofDigits_digits]
  · have hz : n = 0 := by omega
    subst hz
    decide

/-- Decimal renderings of distinct naturals are distinct. -/
theorem natRepr_injective : Function.Injective Nat.repr := by
  intro a b h
  have ha := parseDecimal_repr a
  rw [h, parseDecimal_repr b] at ha
  exact (Option.some.injEq _ _).mp ha.symm

/-! ### The persisted JSON document

writeMessages serialises the whole collection with JSON.stringify and
readMessages parses the whole file with JSON.parse. Json below is the parsed
document; encodeMessage is the document shape JSON.stringify produces for one
message (the timestamp string rendered by its millisecond value, an injective
image of the ISO-8601 string actually written). -/

inductive Json where
  | null
  | bool (b : Bool)
  | num (n : ℤ)
  | str (s : String)
  | arr (elems : List Json)
  | obj (fields : List (String × Json))

/-- Field access on a parsed JSON object (first binding wins). -/
def getField : List (String × Json) → String → Option Json
  | [], _ => none
  | (k, v) :: fs, key => if k = key then some v else getField fs key

/-- The JSON object JSON.stringify writes for one message:
\x7bid, text, timestamp\x7d with the timestamp rendered as the decimal string of
its millisecond instant (standing for the ISO-8601 rendering). -/
def encodeMessage (m : Message) : Json :=
  .obj [("id", .str m.id), ("text", .str m.text), ("timestamp", .str (Nat.repr m.timestamp))]

/-- The JSON array JSON.stringify writes for the whole collection. -/
def encodeMessages (msgs : List Message) : Json :=
  .arr (msgs.map encodeMessage)

/-- Reading one message object back out of the parsed document. -/
def decodeMessage : Json → Option Message
  | .obj fs =>
    match getField fs "id", getField fs "text", getField fs "timestamp" with
    | some (.str i), some (.str t), some (.str ts) =>
      match parseDecimal? ts.data with
      | some n => some ⟨i, t, n⟩
      | none => none
    | _, _, _ => none
  | _ => none

/-- Reading the whole collection back out of the parsed document. -/
def decodeMessages : Json → List Message
  | .arr elems => elems.filterMap decodeMessage
  | _ => []

/-- State of the backing file (DATA_FILE). readFileSync throws on a missing or
unreadable file; JSON.parse throws on contents that are not valid JSON. -/
inductive FileState where
  | missing
  | corrupt
  | content (doc : Json)

/-- readMessages from server.js: try \x7b read, parse \x7d and on any failure log
and return the empty collection. -/
def readMessages : FileState → List Message
  | .missing => []
  | .corrupt => []
  | .content doc => decodeMessages doc

/-- writeMessages from server.js: overwrite the file with the serialised
collection, returning false (file unchanged) when writeFileSync throws. -/
def writeMessages (writeOk : Bool) (messages : List Message) (file : FileState) :
    FileState × Bool :=
  if writeOk then (.content (encodeMessages messages), true) else (file, false)

/-! ### HTTP handlers over the store

Each handler is a pure function from the request data and the stored collection
(the result of readMessages) to its response and the collection persisted
afterwards; writeOk stands for success of the writeMessages call. -/

/-- Models JS String.prototype.trim: strip leading and trailing whitespace. -/
def jsTrim (s : String) : String :=
  ⟨((s.data.dropWhile Char.isWhitespace).reverse.dropWhile Char.isWhitespace).reverse⟩

/-- Response of POST /messages. -/
inductive PostResponse where
  | badRequest (error : String)
  | created (msg : Message)
  | serverError (error : String)
deriving Repr, DecidableEq

/-- HTTP status code sent with each POST /messages response. -/
def PostResponse.status : PostResponse → ℕ
  | .badRequest _ => 400
  | .created _ => 201
  | .serverError _ => 500

/-- POST /messages (server.js lines 186-209): reject missing/empty/whitespace
text with 400, otherwise append a message with id Date.now().toString(), the
trimmed text and the current instant, then save. -/
def postMessage (nowMs : ℕ) (writeOk : Bool) (text : Option String) (store : List Message) :
    PostResponse × List Message :=
  match text with
  | none => (.badRequest "Message text is required", store)
  | some t =>
    if t = "" ∨ jsTrim t = "" then (.badRequest "Message text is required", store)
    else
      let newMessage : Message := { id := Nat.repr nowMs, text := jsTrim t, timestamp := nowMs }
      if writeOk then (.created newMessage, store ++ [newMessage])
      else (.serverError "Failed to save message", store)

/-- Response of DELETE /messages/:id. -/
inductive DeleteByIdResponse where
  | notFound
  | deleted (message : String) (deletedCount : ℕ)
  | serverError (error : String)
deriving Repr, DecidableEq

/-- HTTP status code sent with each DELETE /messages/:id response. -/
def DeleteByIdResponse.status : DeleteByIdResponse → ℕ
  | .notFound => 404
  | .deleted _ _ => 200
  | .serverError _ => 500

/-- DELETE /messages/:id (server.js lines 212-233): filter out messages whose id
equals the parameter; 404 when nothing matched, else save and report
deletedCount 1. -/
def deleteMessageById (messageId : String) (writeOk : Bool) (store : List Message) :
    DeleteByIdResponse × List Message :=
  let filteredMessages := store.filter (fun m => m.id != messageId)
  if filteredMessages.length = store.length then (.notFound, store)
  else if writeOk then (.deleted "Message deleted successfully" 1, filteredMessages)
  else (.serverError "Failed to delete message", store)

/-- GET /messages (server.js lines 180-183): return the stored collection. -/
def getMessages (store : List Message) : List Message := store

/-! ### The hours field and the time-based endpoints -/

/-- The hours field of a request body, as the validation check sees it:
absent (undefined or null), a non-empty string that does not coerce to a
number, or a JSON number (JS numbers modelled as rationals). -/
inductive HoursField where
  | absent
  | nonNumericString
  | num (q : ℚ)
deriving Repr, DecidableEq

/-- The shared validation check of DELETE /messages/older-than and
POST /messages/auto-delete: the JS condition
(!hours or isNaN(hours) or hours < 0). An absent field is falsy; a
non-numeric string fails isNaN; for a number the truthiness check rejects 0
and the comparison rejects negatives. -/
def invalidHours : HoursField → Bool
  | .absent => true
  | .nonNumericString => true
  | .num q => decide (q = 0) || decide (q < 0)

/-- Cutoff instant used by the older-than deletion:
new Date(Date.now() - hours * 60 * 60 * 1000). -/
def cutoffTime (nowMs : ℕ) (hours : ℚ) : ℚ := (nowMs : ℚ) - hours * 3600000

/-- Response of DELETE /messages/older-than. -/
inductive OlderThanResponse where
  | badRequest (error : String)
  | deleted (deletedCount : ℕ)
  | serverError (error : String)
deriving Repr, DecidableEq

/-- HTTP status code sent with each DELETE /messages/older-than response. -/
def OlderThanResponse.status : OlderThanResponse → ℕ
  | .badRequest _ => 400
  | .deleted _ => 200
  | .serverError _ => 500

/-- DELETE /messages/older-than (server.js lines 247-272): validate hours, keep
exactly the messages whose timestamp is at least the cutoff, save, and report
how many were dropped. -/
def deleteOlderThan (nowMs : ℕ) (hours : HoursField) (writeOk : Bool)
    (store : List Message) : OlderThanResponse × List Message :=
  if invalidHours hours then (.badRequest "Valid hours parameter is required", store)
  else
    match hours with
    | .num q =>
      let filteredMessages :=
        store.filter (fun m => decide (cutoffTime nowMs q ≤ (m.timestamp : ℚ)))
      if writeOk then (.deleted (store.length - filteredMessages.length), filteredMessages)
      else (.serverError "Failed to delete old messages", store)
    | _ => (.badRequest "Valid hours parameter is required", store)

/-- The process-wide sweep timer: the hours value captured when
startAutoDeleteTimer was last called (server.js lines 144-172). -/
structure SweepTimer where
  hours : ℚ
deriving Repr, DecidableEq

/-- startAutoDeleteTimer(hours): cancel the previous timer and schedule a new
one with the given period. -/
def startAutoDeleteTimer (hours : ℚ) (_timer : SweepTimer) : SweepTimer :=
  { hours := hours }

/-- Response of POST /messages/auto-delete (its 200 body also carries a
human-readable message string built from the same hours value). -/
inductive AutoDeleteSetResponse where
  | badRequest (error : String)
  | ok (hours : ℚ)
deriving Repr, DecidableEq

/-- POST /messages/auto-delete (server.js lines 275-289): validate hours, then
reschedule the sweep timer. It does not touch AUTO_DELETE_HOURS. -/
def postAutoDelete (hours : HoursField) (timer : SweepTimer) :
    AutoDeleteSetResponse × SweepTimer :=
  if invalidHours hours then (.badRequest "Valid hours parameter is required", timer)
  else
    match hours with
    | .num q => (.ok q, startAutoDeleteTimer q timer)
    | _ => (.badRequest "Valid hours parameter is required", timer)

/-- The startup constant AUTO_DELETE_HOURS =
parseInt(process.env.AUTO_DELETE_HOURS) || 24 (server.js line 20): NaN from a
missing variable is falsy, and so is a parsed 0. -/
def autoDeleteHoursFromEnv (env : Option ℕ) : ℕ :=
  match env with
  | none => 24
  | some n => if n = 0 then 24 else n

/-- Body of GET /messages/auto-delete. -/
structure AutoDeleteInfo where
  autoDeleteEnabled : Bool
  currentSetting : String
  configurable : Bool
deriving Repr, DecidableEq

/-- GET /messages/auto-delete (server.js lines 292-298): reports the startup
constant AUTO_DELETE_HOURS; the timer state is in scope but never read. -/
def getAutoDelete (autoDeleteHours : ℕ) (_timer : SweepTimer) : AutoDeleteInfo :=
  { autoDeleteEnabled := true
    currentSetting := Nat.repr autoDeleteHours ++ " hours"
    configurable := true }

/-! ### escapeHtml from src/frontend/script.js

JS strings are modelled as lists of characters; each .replace(/c/g, rep) call is
a full left-to-right scan replacing every occurrence of the one-character
pattern. -/

/-- The double-quote character. -/
def quotChar : Char := Char.ofNat 34

/-- The apostrophe character. -/
def aposChar : Char := Char.ofNat 39

/-- Replacement text for the ampersand. -/
def ampEntity : List Char := ['&', 'a', 'm', 'p', ';']

/-- Replacement text for the less-than sign. -/
def ltEntity : List Char := ['&', 'l', 't', ';']

/-- Replacement text for the greater-than sign. -/
def gtEntity : List Char := ['&', 'g', 't', ';']

/-- Replacement text for the double quote. -/
def quotEntity : List Char := ['&', 'q', 'u', 'o', 't', ';']

/-- Replacement text for the apostrophe. -/
def aposEntity : List Char := ['&', '#', '0', '3', '9', ';']

/-- The five entity strings escapeHtml can emit. -/
def htmlEntities : List (List Char) := [ampEntity, ltEntity, gtEntity, quotEntity, aposEntity]

/-- One .replace(/pat/g, rep) pass over the string. -/
def replaceAllChar (pat : Char) (rep : List Char) : List Char → List Char
  | [] => []
  | c :: rest => (if c = pat then rep else [c]) ++ replaceAllChar pat rep rest

/-- escapeHtml (script.js lines 300-308): empty input is falsy and returns the
empty string; otherwise the five replacement passes run in source order. -/
def escapeHtml (s : List Char) : List Char :=
  if s = [] then []
  else
    replaceAllChar aposChar aposEntity
      (replaceAllChar quotChar quotEntity
        (replaceAllChar '>' gtEntity
          (replaceAllChar '<' ltEntity
            (replaceAllChar '&' ampEntity s))))

/-- Per-character effect of the whole pass chain. -/
def escapeChar (c : Char) : List Char :=
  if c = '&' then ampEntity
  else if c = '<' then ltEntity
  else if c = '>' then gtEntity
  else if c = quotChar then quotEntity
  else if c = aposChar then aposEntity
  else [c]

/-- Single-pass form of the chain. -/
def escapeAll : List Char → List Char
  | [] => []
  | c :: rest => escapeChar c ++ escapeAll rest

theorem replaceAllChar_append (pat : Char) (rep l₁ l₂ : List Char) :
    replaceAllChar pat rep (l₁ ++ l₂)
      = replaceAllChar pat rep l₁ ++ replaceAllChar pat rep l₂ := by
  induction l₁ with
  | nil => rfl
  | cons c rest ih => simp [replaceAllChar, ih]

/-- The five sequential passes act on each source character independently. -/
theorem escapeChain_eq_escapeAll (s : List Char) :
    replaceAllChar aposChar aposEntity
      (replaceAllChar quotChar quotEntity
        (replaceAllChar '>' gtEntity
          (replaceAllChar '<' ltEntity
            (replaceAllChar '&' ampEntity s)))) = escapeAll s := by
  induction s with
  | nil => rfl
  | cons c rest ih =>
    have hsplit : replaceAllChar '&' ampEntity (c :: rest)
        = (if c = '&' then ampEntity else [c]) ++ replaceAllChar '&' ampEntity rest := rfl
    rw [hsplit, replaceAllChar_append, replaceAllChar_append, replaceAllChar_append,
      replaceAllChar_append, ih, escapeAll]
    congr 1
    by_cases h1 : c = '&'
    · subst h1; decide
    by_cases h2 : c = '<'
    · subst h2; decide
    by_cases h3 : c = '>'
    · subst h3; decide
    by_cases h4 : c = quotChar
    · subst h4; decide
    by_cases h5 : c = aposChar
    · subst h5; decide
    · simp [escapeChar, replaceAllChar, h1, h2, h3, h4, h5]

theorem escapeHtml_eq_escapeAll (s : List Char) : escapeHtml s = escapeAll s := by
  by_cases h : s = []
  · subst h; rfl
  · rw [escapeHtml, if_neg h, escapeChain_eq_escapeAll]

/-- Each per-character block is an entity or a harmless single character. -/
theorem escapeChar_cases (c : Char) :
    escapeChar c ∈ htmlEntities
      ∨ (escapeChar c = [c] ∧ c ≠ '&' ∧ c ≠ '<' ∧ c ≠ '>' ∧ c ≠ quotChar ∧ c ≠ aposChar) := by
  by_cases h1 : c = '&'
  · subst h1; left; decide
  by_cases h2 : c = '<'
  · subst h2; left; decide
  by_cases h3 : c = '>'
  · subst h3; left; decide
  by_cases h4 : c = quotChar
  · subst h4; left; decide
  by_cases h5 : c = aposChar
  · subst h5; left; decide
  · right
    refine ⟨?_, h1, h2, h3, h4, h5⟩
    rw [escapeChar, if_neg h1, if_neg h2, if_neg h3, if_neg h4, if_neg h5]

/-- None of the five entities contains a raw special character. -/
theorem entity_no_raw :
    ∀ e ∈ htmlEntities, '<' ∉ e ∧ '>' ∉ e ∧ quotChar ∉ e ∧ aposChar ∉ e := by decide

/-- No output character of any per-character block is a raw special. -/
theorem escapeChar_no_raw (c c' : Char) (h : c' ∈ escapeChar c) :
    c' ≠ '<' ∧ c' ≠ '>' ∧ c' ≠ quotChar ∧ c' ≠ aposChar := by
  rcases escapeChar_cases c with hent | ⟨hsing, _, h2, h3, h4, h5⟩
  · obtain ⟨hlt, hgt, hq, ha⟩ := entity_no_raw _ hent
    exact ⟨fun e => hlt (e ▸ h), fun e => hgt (e ▸ h), fun e => hq (e ▸ h), fun e => ha (e ▸ h)⟩
  · rw [hsing, List.mem_singleton] at h
    subst h
    exact ⟨h2, h3, h4, h5⟩

/-- Every emitted entity starts with the ampersand and has no other one. -/
theorem entity_amp_shape :
    ∀ e ∈ htmlEntities, e.head? = some '&' ∧ '&' ∉ e.drop 1 := by decide

/-- Splitting an equality between a concatenation and a list with a
distinguished element: the element lands in the left or the right part. -/
theorem append_split {α : Type} (xs ys pre suf : List α) (x : α)
    (h : xs ++ ys = pre ++ x :: suf) :
    (∃ mid, xs = pre ++ x :: mid ∧ suf = mid ++ ys)
      ∨ (∃ k, pre = xs ++ k ∧ ys = k ++ x :: suf) := by
  induction xs generalizing pre with
  | nil =>
    right
    exact ⟨pre, rfl, h⟩
  | cons a xs' ih =>
    cases pre with
    | nil =>
      simp only [List.cons_append, List.nil_append, List.cons.injEq] at h
      obtain ⟨rfl, h2⟩ := h
      exact Or.inl ⟨xs', rfl, h2.symm⟩
    | cons p pre' =>
      simp only [List.cons_append, List.cons.injEq] at h
      obtain ⟨rfl, hrest⟩ := h
      rcases ih pre' hrest with ⟨mid, h1, h2⟩ | ⟨k, h1, h2⟩
      · exact Or.inl ⟨mid, by rw [List.cons_append, h1], h2⟩
      · exact Or.inr ⟨k, by rw [List.cons_append, h1], h2⟩

/-- Every ampersand in the single-pass output starts one of the five
entities. -/
theorem escapeAll_amp (s : List Char) :
    ∀ pre suf, escapeAll s = pre ++ '&' :: suf →
      ∃ e ∈ htmlEntities, ∃ t, '&' :: suf = e ++ t := by
  induction s with
  | nil =>
    intro pre suf h
    exact absurd h.symm (List.append_ne_nil_of_right_ne_nil pre (List.cons_ne_nil _ _))
  | cons c rest ih =>
    intro pre suf h
    rw [escapeAll] at h
    rcases append_split (escapeChar c) (escapeAll rest) pre suf '&' h with
      ⟨mid, hblock, hsuf⟩ | ⟨k, _, hrest⟩
    · rcases escapeChar_cases c with hent | ⟨hsing, hamp, _⟩
      · obtain ⟨_, htail⟩ := entity_amp_shape (escapeChar c) hent
        cases pre with
        | nil =>
          simp only [List.nil_append] at hblock
          refine ⟨escapeChar c, hent, escapeAll rest, ?_⟩
          rw [hblock, hsuf]
          rfl
        | cons p pre' =>
          exfalso
          apply htail
          have hdrop : (escapeChar c).drop 1 = pre' ++ '&' :: mid := by rw [hblock]; rfl
          rw [hdrop]
          exact List.mem_append_right pre' (List.mem_cons_self _ _)
      · exfalso
        rw [hsing] at hblock
        have hlen := congrArg List.length hblock
        simp only [List.length_cons, List.length_nil, List.length_append] at hlen
        have hpre : pre.length = 0 := by omega
        have hmid : mid.length = 0 := by omega
        rw [List.length_eq_zero] at hpre hmid
        subst hpre hmid
        simp only [List.nil_append, List.cons.injEq] at hblock
        exact hamp hblock.1
    · exact ih k suf hrest

/-- Output characters all come from some input character's block. -/
theorem escapeAll_mem (s : List Char) (c' : Char) (h : c' ∈ escapeAll s) :
    ∃ c ∈ s, c' ∈ escapeChar c := by
  induction s with
  | nil => cases h
  | cons c rest ih =>
    rw [escapeAll, List.mem_append] at h
    rcases h with h | h
    · exact ⟨c, List.mem_cons_self c rest, h⟩
    · obtain ⟨d, hd, hcd⟩ := ih h
      exact ⟨d, List.mem_cons_of_mem c hd, hcd⟩

/-! ### Round-trip of the persisted document -/

theorem decodeMessage_encodeMessage (m : Message) :
    decodeMessage (encodeMessage m) = some m := by
  simp [decodeMessage, encodeMessage, getField, parseDecimal_repr]

theorem decodeMessages_encodeMessages (msgs : List Message) :
    decodeMessages (encodeMessages msgs) = msgs := by
  show List.filterMap decodeMessage (msgs.map encodeMessage) = msgs
  induction msgs with
  | nil => rfl
  | cons m tl ih =>
    simp only [List.map_cons, List.filterMap_cons, decodeMessage_encodeMessage m, ih]

/-! ### Helper lemmas about filtering -/

theorem filter_length_split {α : Type} (p : α → Bool) (l : List α) :
    (l.filter p).length + (l.filter (fun a => !(p a))).length = l.length := by
  induction l with
  | nil => rfl
  | cons x tl ih =>
    cases h : p x <;> simp [List.filter_cons, h, ← ih] <;> omega

/-- With pairwise-distinct ids, the messages matching a present id form
exactly the singleton of the matching message. -/
theorem filter_eq_target_unique (target : String) (store : List Message)
    (hnodup : (store.map Message.id).Nodup) (m : Message) (hm : m ∈ store)
    (hid : m.id = target) :
    store.filter (fun x => x.id == target) = [m] := by
  induction store with
  | nil => cases hm
  | cons a tl ih =>
    rw [List.map_cons, List.nodup_cons] at hnodup
    obtain ⟨hnotin, htl⟩ := hnodup
    rcases List.mem_cons.mp hm with rfl | hmem
    · rw [List.filter_cons_of_pos (by simp [hid])]
      have hnil : tl.filter (fun x => x.id == target) = [] := by
        rw [List.filter_eq_nil_iff]
        intro x hx
        simp only [beq_iff_eq]
        intro hxid
        apply hnotin
        rw [hid, ← hxid]
        exact List.mem_map_of_mem Message.id hx
      rw [hnil]
    · have hane : (a.id == target) = false := by
        simp only [beq_eq_false_iff_ne, ne_eq]
        intro ha
        apply hnotin
        rw [ha, ← hid]
        exact List.mem_map_of_mem Message.id hmem
      rw [List.filter_cons_of_neg (by simp [hane])]
      exact ih htl hmem

/-! ### The claims -/

/-- C1: for every stored collection and every valid numeric hours > 0,
DELETE /messages/older-than saves exactly the filter keeping timestamps at or
after the cutoff now - hours*3600s (preserving the original order, a sublist),
a stored message survives iff its timestamp is at least the cutoff, and the
response reports deletedCount equal to the number of messages strictly older
than the cutoff. -/
theorem claim1_deleteOlderThan_correct (nowMs : ℕ) (q : ℚ) (store : List Message)
    (hq : 0 < q) :
    (deleteOlderThan nowMs (.num q) true store).2
        = store.filter (fun m => decide (cutoffTime nowMs q ≤ (m.timestamp : ℚ)))
    ∧ List.Sublist (deleteOlderThan nowMs (.num q) true store).2 store
    ∧ (∀ m ∈ store,
        (m ∈ (deleteOlderThan nowMs (.num q) true store).2
          ↔ cutoffTime nowMs q ≤ (m.timestamp : ℚ)))
    ∧ (deleteOlderThan nowMs (.num q) true store).1
        = .deleted (store.countP (fun m => decide ((m.timestamp : ℚ) < cutoffTime nowMs q))) := by
  have hv : invalidHours (HoursField.num q) = false := by
    simp [invalidHours, hq.ne', not_lt.mpr hq.le]
  have hred : deleteOlderThan nowMs (.num q) true store
      = (.deleted (store.length - (store.filter
            (fun m => decide (cutoffTime nowMs q ≤ (m.timestamp : ℚ)))).length),
         store.filter (fun m => decide (cutoffTime nowMs q ≤ (m.timestamp : ℚ)))) := by
    simp [deleteOlderThan, hv]
  refine ⟨by rw [hred], by rw [hred]; exact List.filter_sublist store, ?_, ?_⟩
  · intro m hm
    rw [hred]
    simp [List.mem_filter, hm]
  · rw [hred]
    have hsplit : (store.filter
          (fun m => decide (cutoffTime nowMs q ≤ (m.timestamp : ℚ)))).length
        + (store.filter
            (fun m => !(decide (cutoffTime nowMs q ≤ (m.timestamp : ℚ))))).length
        = store.length := filter_length_split _ store
    have hcount : store.countP (fun m => decide ((m.timestamp : ℚ) < cutoffTime nowMs q))
        = (store.filter
            (fun m => !(decide (cutoffTime nowMs q ≤ (m.timestamp : ℚ))))).length := by
      rw [← List.countP_eq_length_filter]
      apply List.countP_congr
      intro m _
      simp [not_le]
    have h1 : (OlderThanResponse.deleted (store.length - (store.filter
            (fun m => decide (cutoffTime nowMs q ≤ (m.timestamp : ℚ)))).length),
          store.filter (fun m => decide (cutoffTime nowMs q ≤ (m.timestamp : ℚ)))).1
        = OlderThanResponse.deleted (store.length - (store.filter
            (fun m => decide (cutoffTime nowMs q ≤ (m.timestamp : ℚ)))).length) := rfl
    rw [h1, hcount]
    have hdiff : store.length - (store.filter
          (fun m => decide (cutoffTime nowMs q ≤ (m.timestamp : ℚ)))).length
        = (store.filter
            (fun m => !(decide (cutoffTime nowMs q ≤ (m.timestamp : ℚ))))).length := by
      omega
    rw [hdiff]

/-- C1 witness: with the clock at 7200000 ms and hours = 1, a two-message
store keeps its 2-hour-old message... the message at instant 0 is removed and
the message at the current instant is kept. -/
theorem claim1_witness :
    (0:ℚ) < 1
  ∧ ((deleteOlderThan 7200000 (.num 1) true
          [(⟨"0", "old", 0⟩ : Message), ⟨"7200000", "new", 7200000⟩]).2
        = [(⟨"0", "old", 0⟩ : Message), ⟨"7200000", "new", 7200000⟩].filter
            (fun m => decide (cutoffTime 7200000 1 ≤ (m.timestamp : ℚ)))
    ∧ List.Sublist (deleteOlderThan 7200000 (.num 1) true
          [(⟨"0", "old", 0⟩ : Message), ⟨"7200000", "new", 7200000⟩]).2
        [(⟨"0", "old", 0⟩ : Message), ⟨"7200000", "new", 7200000⟩]
    ∧ (∀ m ∈ [(⟨"0", "old", 0⟩ : Message), ⟨"7200000", "new", 7200000⟩],
        (m ∈ (deleteOlderThan 7200000 (.num 1) true
            [(⟨"0", "old", 0⟩ : Message), ⟨"7200000", "new", 7200000⟩]).2
          ↔ cutoffTime 7200000 1 ≤ (m.timestamp : ℚ)))
    ∧ (deleteOlderThan 7200000 (.num 1) true
          [(⟨"0", "old", 0⟩ : Message), ⟨"7200000", "new", 7200000⟩]).1
        = .deleted ([(⟨"0", "old", 0⟩ : Message), ⟨"7200000", "new", 7200000⟩].countP
            (fun m => decide ((m.timestamp : ℚ) < cutoffTime 7200000 1)))) :=
  ⟨by norm_num, claim1_deleteOlderThan_correct 7200000 1
    [(⟨"0", "old", 0⟩ : Message), ⟨"7200000", "new", 7200000⟩] (by norm_num)⟩

/-- C2 counterexample: two POST /messages handled in the same millisecond
(Date.now() = 1000 for both) each return 201, yet both created messages get
the id "1000": the persisted collection then violates id uniqueness. -/
theorem claim2_counterexample :
    (postMessage 1000 true (some "a") []).1 = .created ⟨"1000", "a", 1000⟩
  ∧ (postMessage 1000 true (some "a") []).2 = [⟨"1000", "a", 1000⟩]
  ∧ (postMessage 1000 true (some "b") [⟨"1000", "a", 1000⟩]).1
      = .created ⟨"1000", "b", 1000⟩
  ∧ (postMessage 1000 true (some "b") [⟨"1000", "a", 1000⟩]).2
      = [⟨"1000", "a", 1000⟩, ⟨"1000", "b", 1000⟩]
  ∧ Message.id ⟨"1000", "a", 1000⟩ = Message.id ⟨"1000", "b", 1000⟩
  ∧ ¬ (List.map Message.id [(⟨"1000", "a", 1000⟩ : Message), ⟨"1000", "b", 1000⟩]).Nodup := by
  refine ⟨?_, ?_, ?_, ?_, rfl, ?_⟩ <;> decide

/-- C2 as amended: ids are the creation-time millisecond rendered in decimal,
so two append operations create messages with distinct ids exactly when they
are handled at distinct clock milliseconds (same-millisecond appends collide,
as the counterexample shows). -/
theorem claim2_amended (t₁ t₂ : ℕ) (x y : String) (s₁ s₂ : List Message)
    (hms : t₁ ≠ t₂) (hx : jsTrim x ≠ "") (hy : jsTrim y ≠ "") :
    (postMessage t₁ true (some x) s₁).1 = .created ⟨Nat.repr t₁, jsTrim x, t₁⟩
  ∧ (postMessage t₂ true (some y) s₂).1 = .created ⟨Nat.repr t₂, jsTrim y, t₂⟩
  ∧ Message.id ⟨Nat.repr t₁, jsTrim x, t₁⟩ ≠ Message.id ⟨Nat.repr t₂, jsTrim y, t₂⟩ := by
  have hx' : ¬(x = "" ∨ jsTrim x = "") := by
    rintro (rfl | h)
    · exact hx rfl
    · exact hx h
  have hy' : ¬(y = "" ∨ jsTrim y = "") := by
    rintro (rfl | h)
    · exact hy rfl
    · exact hy h
  refine ⟨by simp [postMessage, hx'], by simp [postMessage, hy'], ?_⟩
  intro h
  exact hms (natRepr_injective h)

/-- C2 amended witness: appends at milliseconds 1 and 2 succeed and get the
distinct ids "1" and "2". -/
theorem claim2_amended_witness :
    ((1:ℕ) ≠ 2 ∧ jsTrim "a" ≠ "" ∧ jsTrim "b" ≠ "")
  ∧ ((postMessage 1 true (some "a") []).1 = .created ⟨Nat.repr 1, jsTrim "a", 1⟩
    ∧ (postMessage 2 true (some "b") []).1 = .created ⟨Nat.repr 2, jsTrim "b", 2⟩
    ∧ Message.id ⟨Nat.repr 1, jsTrim "a", 1⟩ ≠ Message.id ⟨Nat.repr 2, jsTrim "b", 2⟩) :=
  ⟨⟨by decide, by decide, by decide⟩,
    claim2_amended 1 2 "a" "b" [] [] (by decide) (by decide) (by decide)⟩

/-- C3: DELETE /messages/older-than and POST /messages/auto-delete answer 400
exactly when the hours field is absent, a non-numeric string, or a number
that is zero or negative; every strictly positive number passes, and the
literal 0, though allowed by the stated non-negative rule, is rejected by the
truthiness check. -/
theorem claim3_hours_validation (nowMs : ℕ) (writeOk : Bool) (h : HoursField)
    (store : List Message) (timer : SweepTimer) :
    ((deleteOlderThan nowMs h writeOk store).1
        = OlderThanResponse.badRequest "Valid hours parameter is required"
      ↔ ∀ q : ℚ, h = .num q → q ≤ 0)
  ∧ ((postAutoDelete h timer).1
        = AutoDeleteSetResponse.badRequest "Valid hours parameter is required"
      ↔ ∀ q : ℚ, h = .num q → q ≤ 0)
  ∧ invalidHours (.num 0) = true := by
  refine ⟨?_, ?_, by decide⟩ <;>
  · cases h with
    | absent => simp [deleteOlderThan, postAutoDelete, invalidHours]
    | nonNumericString => simp [deleteOlderThan, postAutoDelete, invalidHours]
    | num q =>
      by_cases hq : q ≤ 0
      · have hv : invalidHours (HoursField.num q) = true := by
          rcases lt_or_eq_of_le hq with hlt | heq
          · simp [invalidHours, hlt]
          · simp [invalidHours, heq.symm]
        simp only [deleteOlderThan, postAutoDelete, hv, if_true]
        simp only [true_iff]
        intro q' hq'
        cases hq'
        exact hq
      · have hv : invalidHours (HoursField.num q) = false := by
          push_neg at hq
          simp [invalidHours, hq.ne', not_lt.mpr hq.le]
        simp only [deleteOlderThan, postAutoDelete, hv, Bool.false_eq_true, if_false]
        constructor
        · intro hbad
          cases writeOk <;> simp_all
        · intro hall
          exact absurd (hall q rfl) hq

/-- C4: for every text that is non-empty after trimming, POST /messages
returns 201 with the created message carrying the trimmed text, the freshly
generated id Date.now().toString(), and a server-side timestamp inside the
request's execution window; the saved collection is the old one plus exactly
that message, so a subsequent GET /messages returns it. -/
theorem claim4_post_valid (nowMs : ℕ) (t : String) (store : List Message)
    (t₁ t₂ : ℕ) (htrim : jsTrim t ≠ "") (hlo : t₁ ≤ nowMs) (hhi : nowMs ≤ t₂) :
    postMessage nowMs true (some t) store
        = (.created ⟨Nat.repr nowMs, jsTrim t, nowMs⟩,
           store ++ [⟨Nat.repr nowMs, jsTrim t, nowMs⟩])
  ∧ PostResponse.status (.created ⟨Nat.repr nowMs, jsTrim t, nowMs⟩) = 201
  ∧ t₁ ≤ (Message.mk (Nat.repr nowMs) (jsTrim t) nowMs).timestamp
  ∧ (Message.mk (Nat.repr nowMs) (jsTrim t) nowMs).timestamp ≤ t₂
  ∧ getMessages (postMessage nowMs true (some t) store).2
      = store ++ [⟨Nat.repr nowMs, jsTrim t, nowMs⟩] := by
  have ht' : ¬(t = "" ∨ jsTrim t = "") := by
    rintro (rfl | h)
    · exact htrim rfl
    · exact htrim h
  have hpost : postMessage nowMs true (some t) store
      = (.created ⟨Nat.repr nowMs, jsTrim t, nowMs⟩,
         store ++ [⟨Nat.repr nowMs, jsTrim t, nowMs⟩]) := by
    simp [postMessage, ht']
  exact ⟨hpost, rfl, hlo, hhi, by rw [hpost]; rfl⟩

/-- C4 witness: posting "hello" at millisecond 5 inside the window 4..6. -/
theorem claim4_witness :
    (jsTrim "hello" ≠ "" ∧ (4:ℕ) ≤ 5 ∧ (5:ℕ) ≤ 6)
  ∧ (postMessage 5 true (some "hello") []
        = (.created ⟨Nat.repr 5, jsTrim "hello", 5⟩,
           [] ++ [⟨Nat.repr 5, jsTrim "hello", 5⟩])
    ∧ PostResponse.status (.created ⟨Nat.repr 5, jsTrim "hello", 5⟩) = 201
    ∧ 4 ≤ (Message.mk (Nat.repr 5) (jsTrim "hello") 5).timestamp
    ∧ (Message.mk (Nat.repr 5) (jsTrim "hello") 5).timestamp ≤ 6
    ∧ getMessages (postMessage 5 true (some "hello") []).2
        = [] ++ [⟨Nat.repr 5, jsTrim "hello", 5⟩]) :=
  ⟨⟨by decide, by decide, by decide⟩,
    claim4_post_valid 5 "hello" [] 4 6 (by decide) (by decide) (by decide)⟩

/-- C5: DELETE /messages/:id of an id matching no stored message answers 404
and performs no write (collection unchanged); when the id is present (ids
being unique in a stored collection), the response is 200 with
deletedCount 1 and the saved collection is the old one with exactly the
matching message removed, others kept in order. -/
theorem claim5_deleteById (target : String) (store : List Message)
    (hnodup : (store.map Message.id).Nodup) :
    ((∀ m ∈ store, m.id ≠ target) →
        deleteMessageById target true store = (.notFound, store)
        ∧ DeleteByIdResponse.status .notFound = 404)
  ∧ (∀ m ∈ store, m.id = target →
        deleteMessageById target true store
          = (.deleted "Message deleted successfully" 1,
             store.filter (fun x => x.id != target))
        ∧ store.filter (fun x => x.id == target) = [m]
        ∧ store.length = (store.filter (fun x => x.id != target)).length + 1
        ∧ List.Sublist (store.filter (fun x => x.id != target)) store) := by
  constructor
  · intro hnone
    have hself : store.filter (fun x => x.id != target) = store := by
      rw [List.filter_eq_self]
      intro x hx
      simp [hnone x hx]
    refine ⟨?_, rfl⟩
    rw [deleteMessageById]
    simp [hself]
  · intro m hm hid
    have hone : store.filter (fun x => x.id == target) = [m] :=
      filter_eq_target_unique target store hnodup m hm hid
    have hsplit : (store.filter (fun x => x.id == target)).length
        + (store.filter (fun x => !(x.id == target))).length = store.length :=
      filter_length_split _ store
    have hbne : store.filter (fun x => x.id != target)
        = store.filter (fun x => !(x.id == target)) := rfl
    have hlen : store.length = (store.filter (fun x => x.id != target)).length + 1 := by
      rw [hbne]
      rw [hone] at hsplit
      simp only [List.length_cons, List.length_nil] at hsplit
      omega
    have hne : ¬((store.filter (fun x => x.id != target)).length = store.length) := by
      omega
    refine ⟨?_, hone, hlen, List.filter_sublist store⟩
    rw [deleteMessageById]
    simp [hne]

/-- C5 witness: deleting id "x" from a two-message store with distinct ids
removes exactly the "x" message; the 404 branch is vacuous there. -/
theorem claim5_witness :
    (List.map Message.id [(⟨"x", "hi", 0⟩ : Message), ⟨"y", "yo", 1⟩]).Nodup
  ∧ (((∀ m ∈ [(⟨"x", "hi", 0⟩ : Message), ⟨"y", "yo", 1⟩], m.id ≠ "x") →
        deleteMessageById "x" true [(⟨"x", "hi", 0⟩ : Message), ⟨"y", "yo", 1⟩]
          = (.notFound, [(⟨"x", "hi", 0⟩ : Message), ⟨"y", "yo", 1⟩])
        ∧ DeleteByIdResponse.status .notFound = 404)
    ∧ (∀ m ∈ [(⟨"x", "hi", 0⟩ : Message), ⟨"y", "yo", 1⟩], m.id = "x" →
        deleteMessageById "x" true [(⟨"x", "hi", 0⟩ : Message), ⟨"y", "yo", 1⟩]
          = (.deleted "Message deleted successfully" 1,
             [(⟨"x", "hi", 0⟩ : Message), ⟨"y", "yo", 1⟩].filter (fun x => x.id != "x"))
        ∧ [(⟨"x", "hi", 0⟩ : Message), ⟨"y", "yo", 1⟩].filter (fun x => x.id == "x") = [m]
        ∧ [(⟨"x", "hi", 0⟩ : Message), ⟨"y", "yo", 1⟩].length
            = ([(⟨"x", "hi", 0⟩ : Message), ⟨"y", "yo", 1⟩].filter
                (fun x => x.id != "x")).length + 1
        ∧ List.Sublist ([(⟨"x", "hi", 0⟩ : Message), ⟨"y", "yo", 1⟩].filter
            (fun x => x.id != "x")) [(⟨"x", "hi", 0⟩ : Message), ⟨"y", "yo", 1⟩])) :=
  ⟨by decide, claim5_deleteById "x" [(⟨"x", "hi", 0⟩ : Message), ⟨"y", "yo", 1⟩] (by decide)⟩

/-- C6: POST /messages with text missing, empty, or whitespace-only after
trimming answers 400 with the body error "Message text is required" and the
stored collection is unchanged, whatever the write outcome would have been. -/
theorem claim6_post_invalid_text (nowMs : ℕ) (writeOk : Bool) (text : Option String)
    (store : List Message)
    (h : text = none ∨ ∃ t, text = some t ∧ jsTrim t = "") :
    postMessage nowMs writeOk text store = (.badRequest "Message text is required", store)
  ∧ PostResponse.status (.badRequest "Message text is required") = 400 := by
  rcases h with rfl | ⟨t, rfl, ht⟩
  · exact ⟨rfl, rfl⟩
  · refine ⟨?_, rfl⟩
    rw [postMessage]
    simp only [Or.inr ht, if_pos]

/-- C6 witness: a whitespace-only body "   " is rejected and the store kept. -/
theorem claim6_witness :
    ((some "   " : Option String) = none
      ∨ ∃ t, (some "   " : Option String) = some t ∧ jsTrim t = "")
  ∧ (postMessage 0 true (some "   ") [(⟨"1", "x", 5⟩ : Message)]
        = (.badRequest "Message text is required", [(⟨"1", "x", 5⟩ : Message)])
    ∧ PostResponse.status (.badRequest "Message text is required") = 400) :=
  ⟨Or.inr ⟨"   ", rfl, by decide⟩,
    claim6_post_invalid_text 0 true (some "   ") [(⟨"1", "x", 5⟩ : Message)]
      (Or.inr ⟨"   ", rfl, by decide⟩)⟩

/-- C7: saving a collection with writeMessages and loading it back with
readMessages yields an equal sequence, in the same order, whatever the
previous file state, provided the write succeeds. -/
theorem claim7_write_read_roundtrip (msgs : List Message) (file : FileState) :
    readMessages (writeMessages true msgs file).1 = msgs := by
  show readMessages (FileState.content (encodeMessages msgs)) = msgs
  exact decodeMessages_encodeMessages msgs

/-- C8: readMessages is fail-soft and total: a missing/unreadable file and a
file whose contents do not parse as JSON both load as the empty sequence, and
a well-formed persisted collection loads as exactly that sequence. -/
theorem claim8_read_failsoft :
    readMessages .missing = []
  ∧ readMessages .corrupt = []
  ∧ ∀ msgs : List Message, readMessages (.content (encodeMessages msgs)) = msgs :=
  ⟨rfl, rfl, fun msgs => decodeMessages_encodeMessages msgs⟩

/-- C9: for every input string, escapeHtml emits no raw less-than,
greater-than, double-quote or apostrophe character, and every ampersand in
the output starts one of the five emitted entities. -/
theorem claim9_escapeHtml_safe (s : List Char) :
    (∀ c ∈ escapeHtml s, c ≠ '<' ∧ c ≠ '>' ∧ c ≠ quotChar ∧ c ≠ aposChar)
  ∧ (∀ pre suf, escapeHtml s = pre ++ '&' :: suf →
      ∃ e ∈ htmlEntities, ∃ t, '&' :: suf = e ++ t) := by
  rw [escapeHtml_eq_escapeAll]
  constructor
  · intro c hc
    obtain ⟨d, _, hd⟩ := escapeAll_mem s c hc
    exact escapeChar_no_raw d c hd
  · exact escapeAll_amp s

/-- C10: GET /messages/auto-delete reports the startup constant
AUTO_DELETE_HOURS (environment value, defaulting to 24): reconfiguring via
POST /messages/auto-delete reschedules the timer but leaves the reported
setting unchanged. -/
theorem claim10_autoDelete_get_frame (env : Option ℕ) (h : HoursField) (timer : SweepTimer) :
    getAutoDelete (autoDeleteHoursFromEnv env) (postAutoDelete h timer).2
      = getAutoDelete (autoDeleteHoursFromEnv env) timer
  ∧ (getAutoDelete (autoDeleteHoursFromEnv env) timer).currentSetting
      = Nat.repr (autoDeleteHoursFromEnv env) ++ " hours"
  ∧ autoDeleteHoursFromEnv none = 24 :=
  ⟨rfl, rfl, rfl⟩

end NodeApp
